import Mathlib

/-!
Verification of the telnet `Connection` codec (`connection.go`).

The Go source is embedded shallowly:

* machine bytes are `Nat` (all inputs considered are `< 256`; no arithmetic
  overflows anywhere in the source, so no masking is needed);
* the underlying `net.Conn` is modelled by a script of read results
  (`script` field): `some chunk` is a successful `Conn.Read` delivering
  `chunk`, `none` is a read that fails with a transport error, and an
  exhausted script behaves as end-of-stream;
* option handlers are modelled as an event sink: the set of registered
  option codes is the `handlers` field, and each callback invocation is
  recorded as an `Event` (the Go callbacks return nothing and the decode
  path never depends on their behaviour);
* bytes written to the transport by the negotiation fallback are
  accumulated in `emitted`; transport writes are modelled as succeeding;
* a Go runtime abort from an out-of-range slice index is modelled as
  `Except.error ()`: a computation that aborts returns no state.

Go `int` arithmetic is translated to `Nat`; every subtraction in the
source occurs at a place where the Go value is non-negative under the
cursor invariant `0 ≤ r ≤ w ≤ len buf`, except `i-1` in `b[lastWrite:i]`
bounds checks, which are translated with the integer-equivalent
comparison (`lastWrite + 1 < i` for `lastWrite < i-1`).
-/

namespace Telnet

/-- Modelled from the spec: the wire constants live in a repository file that
is not part of the provided source (`connection.go` only references them).
Spec §6 fixes them as the escape marker 0xFF and the command bytes of the
governing protocol specification (RFC 854/855): SE 240, SB 250, WILL 251,
WONT 252, DO 253, DONT 254, IAC 255. -/
def IAC : Nat := 255

/-- Subnegotiation-begin command byte (see `IAC`). -/
def SB : Nat := 250

/-- Subnegotiation-end command byte (see `IAC`). -/
def SE : Nat := 240

/-- WILL command byte (see `IAC`). -/
def WILL : Nat := 251

/-- WONT command byte (see `IAC`). -/
def WONT : Nat := 252

/-- DO command byte (see `IAC`). -/
def DO : Nat := 253

/-- DONT command byte (see `IAC`). -/
def DONT : Nat := 254

/-- A recorded handler-callback invocation. `handleSB` carries the body slice
passed to the handler. -/
inductive Event where
  | handleWill (o : Nat)
  | handleDo (o : Nat)
  | handleSB (o : Nat) (body : List Nat)
  deriving DecidableEq, Repr

/-- Error returned by the modelled transport read: end of script (no more
data will ever arrive) or a scripted transport failure. -/
inductive RdErr where
  | eof
  | errRead
  deriving DecidableEq, Repr

/-- State of a `Connection` (struct `Connection` in the source) together with
the modelled environment: the transport-read script, and the observable
side effects (emitted reply bytes, recorded handler events). -/
structure Connection where
  /-- pending results of future `Conn.Read` calls -/
  script : List (Option (List Nat))
  /-- the backing array of the read buffer (`buf`), stale bytes included -/
  buf : List Nat
  /-- read cursor `r` -/
  r : Nat
  /-- write cursor `w` -/
  w : Nat
  /-- `iac` flag: inside an IAC sequence -/
  iac : Bool
  /-- pending command byte (`cmd`), 0 = none -/
  cmd : Nat
  /-- pending option byte (`option`), 0 = none -/
  option : Nat
  /-- option codes with a registered handler (keys of `OptionHandlers`) -/
  handlers : List Nat
  /-- options the peer sent WONT for (`clientWont`) -/
  clientWont : List Nat
  /-- options the peer sent DONT for (`clientDont`) -/
  clientDont : List Nat
  /-- bytes written to the transport by `writeBytes` -/
  emitted : List Nat
  /-- handler callbacks invoked, in order -/
  events : List Event
  deriving DecidableEq, Repr

/-- Go's `copy(dst[off:], src)`: overwrite `min (len dst - off) (len src)`
bytes of `dst` starting at `off` with the first bytes of `src`. -/
def goCopy (dst : List Nat) (off : Nat) (src : List Nat) : List Nat :=
  let k := min (dst.length - off) src.length
  dst.take off ++ src.take k ++ dst.drop (off + k)

/-- `NewConnection`: fresh state over a transport script and a set of
registered option codes (`buf: make([]byte, 256)`, all cursors zero). -/
def NewConnection (script : List (Option (List Nat))) (handlers : List Nat) :
    Connection :=
  { script := script
    buf := List.replicate 256 0
    r := 0
    w := 0
    iac := false
    cmd := 0
    option := 0
    handlers := handlers
    clientWont := []
    clientDont := []
    emitted := []
    events := [] }

/-- `Connection.handleNegotiation`: dispatch on the captured command byte.
The `writeBytes` fallback is modelled as an always-successful transport
write appended to `emitted` (so the Go error return is always nil). The Go
map insertions `clientWont[option] = true` / `clientDont[option] = true`
are modelled as insert-if-absent on the membership list. -/
def Connection.handleNegotiation (s : Connection) : Connection :=
  if s.cmd = WILL then
    if s.option ∈ s.handlers then
      { s with events := s.events ++ [Event.handleWill s.option] }
    else
      { s with emitted := s.emitted ++ [IAC, DONT, s.option] }
  else if s.cmd = WONT then
    { s with clientWont :=
        if s.option ∈ s.clientWont then s.clientWont else s.clientWont ++ [s.option] }
  else if s.cmd = DO then
    if s.option ∈ s.handlers then
      { s with events := s.events ++ [Event.handleDo s.option] }
    else
      { s with emitted := s.emitted ++ [IAC, WONT, s.option] }
  else if s.cmd = DONT then
    { s with clientDont :=
        if s.option ∈ s.clientDont then s.clientDont else s.clientDont ++ [s.option] }
  else
    s

/-- Result of the non-IAC-byte arm of the scan loop body: continue with the
next index, break out of the loop, or abort with an out-of-range index
(Go runtime abort). -/
inductive StepRes where
  | next (s : Connection)
  | stop (s : Connection)
  | oob
  deriving Repr

/-- The second `if/else if` chain of the loop body of `Connection.read`
(command capture, option capture / negotiation, subnegotiation-end).
`ch` is `c.buf[i]`. Mirrors the Go short-circuit evaluation: `c.buf[i-1]`
in the SE arm is only read once `c.iac && c.cmd == SB && ch == SE` holds,
and the `HandleSB` body slice `c.buf[c.r : i-1]` is only formed when a
handler is registered (both can abort at out-of-range indices). -/
def Connection.iacStep (s : Connection) (i : Nat) (ch : Nat) : StepRes :=
  if s.iac = true ∧ s.cmd = 0 then
    -- c.cmd = ch; if ch == SB { if i+2 >= c.w { break }; c.r = i + 2 }
    let s1 := { s with cmd := ch }
    if ch = SB then
      if s1.w ≤ i + 2 then StepRes.stop s1
      else StepRes.next { s1 with r := i + 2 }
    else StepRes.next s1
  else if s.iac = true ∧ s.option = 0 then
    -- c.option = ch; if c.cmd != SB { handleNegotiation; endIAC(i) }
    let s1 := { s with option := ch }
    if s1.cmd ≠ SB then
      let s2 := s1.handleNegotiation
      StepRes.next { s2 with iac := false, cmd := 0, option := 0, r := i + 1 }
    else StepRes.next s1
  else if s.iac = true ∧ s.cmd = SB ∧ ch = SE then
    -- ... && c.buf[i-1] == IAC { HandleSB(c.buf[c.r:i-1]); endIAC(i) }
    if i = 0 then StepRes.oob
    else if s.buf.getD (i - 1) 0 = IAC then
      if s.option ∈ s.handlers then
        if i - 1 < s.r then StepRes.oob
        else
          StepRes.next
            { s with
              events := s.events ++
                [Event.handleSB s.option ((s.buf.drop s.r).take (i - 1 - s.r))]
              iac := false, cmd := 0, option := 0, r := i + 1 }
      else StepRes.next { s with iac := false, cmd := 0, option := 0, r := i + 1 }
    else StepRes.next s
  else StepRes.next s

/-- The scan loop of `Connection.read`
(`for i := c.r; i < c.w && lastWrite < len(b); i++`).

`cap` is `len(b)` (the caller buffer length), `out` the bytes copied to `b`
so far (so `lastWrite = out.length`, and the returned byte count `n` equals
`out.length` because the source increments `n` and `lastWrite` in lockstep).
The inlined helper `write(end)` becomes the `nn := min ...` copies, and
`endIAC` is inlined into `iacStep`.  `Except.error ()` models the Go runtime
abort from the `c.buf[i-1]` accesses when a control sequence resumes at
`i = 0` (and the slice bound aborts inside the SE arm).

The first argument is recursion fuel: every iteration strictly decreases
`2 * (w - i) + (1 if the ignore flag is clear)`, so with the fuel
`Connection.read` supplies the fuel-exhaustion branch is unreachable
(`Connection.scan_fuel_irrel` below makes this precise). -/
def Connection.scan : Nat → Nat → Connection → Nat → Bool → List Nat →
    Except Unit (Connection × List Nat)
  | 0, _, s, _, _, out => Except.ok (s, out)
  | Nat.succ fuel, cap, s, i, ig, out =>
    if i < s.w ∧ out.length < cap then
      let ch := s.buf.getD i 0
      if ch = IAC ∧ ig = false then
        if s.iac = true ∧ s.cmd = 0 then
          -- escaped IAC in text: write(i); c.r++; c.iac = false
          let nn := min (cap - out.length) (i - s.r)
          Connection.scan fuel cap { s with r := s.r + nn + 1, iac := false } (i + 1) ig
            (out ++ (s.buf.drop s.r).take nn)
        else if s.iac = true then
          if i = 0 then Except.error ()
          else if s.buf.getD (i - 1) 0 = IAC then
            -- escaped IAC inside IAC sequence:
            -- copy(c.buf[:i], c.buf[i+1:]); i--; ignoreIAC = true
            let k := min i (s.buf.length - (i + 1))
            Connection.scan fuel cap
              { s with buf := (s.buf.drop (i + 1)).take k ++ s.buf.drop k } i true out
          else
            match s.iacStep i ch with
            | StepRes.next s' => Connection.scan fuel cap s' (i + 1) false out
            | StepRes.stop s' => Except.ok (s', out)
            | StepRes.oob => Except.error ()
        else
          -- start of IAC sequence: write(i); c.iac = true
          let nn := min (cap - out.length) (i - s.r)
          Connection.scan fuel cap { s with r := s.r + nn, iac := true } (i + 1) ig
            (out ++ (s.buf.drop s.r).take nn)
      else
        match s.iacStep i ch with
        | StepRes.next s' => Connection.scan fuel cap s' (i + 1) false out
        | StepRes.stop s' => Except.ok (s', out)
        | StepRes.oob => Except.error ()
    else Except.ok (s, out)

/-- `Connection.fill`: compact, grow if needed, then one transport read. -/
def Connection.fill (s : Connection) (requestedBytes : Nat) :
    Connection × Option RdErr :=
  -- shift unread bytes to the beginning of the buffer
  let s :=
    if 0 < s.r then
      { s with buf := goCopy s.buf 0 (s.buf.drop s.r), w := s.w - s.r, r := 0 }
    else s
  -- grow to exactly the requested size, preserving buf[r:w]
  let s :=
    if s.buf.length < requestedBytes then
      { s with
        buf := goCopy (List.replicate requestedBytes 0) 0
            ((s.buf.drop s.r).take (s.w - s.r))
        w := s.w - s.r, r := 0 }
    else s
  -- one read from the connection into buf[w:]
  match s.script with
  | [] => (s, some RdErr.eof)
  | none :: rest => ({ s with script := rest }, some RdErr.errRead)
  | some chunk :: rest =>
      let space := s.buf.length - s.w
      let taken := chunk.take space
      ({ s with
          buf := goCopy s.buf s.w taken
          w := s.w + taken.length
          script := if chunk.length ≤ space then rest else some (chunk.drop space) :: rest },
        none)

/-- `Connection.read` (the lower-case internal decode pass): fill, scan,
then the unconditional trailing copy of `c.buf[c.r:c.w]` into `b`.
Returns the final state, the bytes written into the caller buffer (`n` is
their count) and the returned error. -/
def Connection.read (s : Connection) (cap : Nat) :
    Except Unit (Connection × List Nat × Option RdErr) :=
  match s.fill cap with
  | (s1, some e) => Except.ok (s1, [], some e)
  | (s1, none) =>
    match Connection.scan (2 * (s1.w - s1.r) + 2) cap s1 s1.r false [] with
    | Except.error u => Except.error u
    | Except.ok (s2, out) =>
      let nn := min (cap - out.length) (s2.w - s2.r)
      Except.ok ({ s2 with r := s2.r + nn },
        out ++ (s2.buf.drop s2.r).take nn, none)

/-- `maxReadAttempts`. -/
def maxReadAttempts : Nat := 10

/-- The retry loop of the public `Connection.Read`:
`for i := 0; i < maxReadAttempts && n == 0 && len(b) > 0; i++ { n, err = c.read(b) }`.
The last component counts how many times `read` was invoked (instrumentation
only; it does not influence the run). -/
def Connection.ReadAux (cap : Nat) :
    Nat → Connection → List Nat → Option RdErr → Nat →
      Except Unit (Connection × List Nat × Option RdErr × Nat)
  | 0, s, out, e, k => Except.ok (s, out, e, k)
  | Nat.succ fuel, s, out, e, k =>
    if out.length = 0 ∧ 0 < cap then
      match s.read cap with
      | Except.error u => Except.error u
      | Except.ok (s', out', e') => Connection.ReadAux cap fuel s' out' e' (k + 1)
    else Except.ok (s, out, e, k)

/-- The public `Connection.Read`. -/
def Connection.Read (s : Connection) (cap : Nat) :
    Except Unit (Connection × List Nat × Option RdErr × Nat) :=
  Connection.ReadAux cap maxReadAttempts s [] none 0

/-- `Connection.Write` with an always-successful transport: returns the Go
return value `n` and the concatenation of all bytes handed to `c.Conn.Write`
(the wire bytes). The Go guard `lastWrite < i-1` on `int`s is the Nat
comparison `lastWrite + 1 < i`. -/
def Connection.Write (b : List Nat) : Nat × List Nat :=
  let st := (List.range b.length).foldl
    (fun (acc : Nat × Nat × List Nat) i =>
      let (lastWrite, n, wire) := acc
      let ch := b.getD i 0
      if ch = IAC then
        let acc1 :=
          if lastWrite + 1 < i then
            (lastWrite, n + (i - lastWrite), wire ++ (b.drop lastWrite).take (i - lastWrite))
          else (lastWrite, n, wire)
        (i + 1, acc1.2.1 + 2, acc1.2.2 ++ [IAC, IAC])
      else acc)
    (0, 0, [])
  if st.1 < b.length then
    (st.2.1 + (b.length - st.1), st.2.2 ++ b.drop st.1)
  else (st.2.1, st.2.2)

/-- Observable outcome of a decode call: the application bytes delivered to
the caller (`out`, whose length is the returned `n`), the returned error,
the bytes emitted to the transport so far, the handler callbacks invoked so
far, the two refusal sets, and (for the public `Read`) the number of
internal decode passes made. -/
structure Obs where
  out : List Nat
  err : Option RdErr
  emitted : List Nat
  events : List Event
  clientWont : List Nat
  clientDont : List Nat
  passes : Nat
  deriving DecidableEq, Repr

/-- Observable projection of one `read` result (`passes` fixed at 1). -/
def readProj (x : Except Unit (Connection × List Nat × Option RdErr)) : Option Obs :=
  match x with
  | Except.ok (s, out, e) =>
      some ⟨out, e, s.emitted, s.events, s.clientWont, s.clientDont, 1⟩
  | Except.error _ => none

/-- Observable projection of a public `Read` result. -/
def readGoProj (x : Except Unit (Connection × List Nat × Option RdErr × Nat)) :
    Option Obs :=
  match x with
  | Except.ok (s, out, e, k) =>
      some ⟨out, e, s.emitted, s.events, s.clientWont, s.clientDont, k⟩
  | Except.error _ => none

set_option maxRecDepth 1000000

theorem Connection.handleNegotiation_w (s : Connection) :
    s.handleNegotiation.w = s.w := by
  unfold Connection.handleNegotiation
  repeat' split
  all_goals rfl

theorem Connection.iacStep_next_w {s : Connection} {i ch : Nat} {s' : Connection}
    (h : s.iacStep i ch = StepRes.next s') : s'.w = s.w := by
  simp only [Connection.iacStep] at h
  repeat' split at h
  all_goals try (injection h with h; subst h)
  all_goals try cases h
  all_goals try rfl
  all_goals simp [Connection.handleNegotiation_w]

set_option maxHeartbeats 2000000 in
/-- The loop body of the scan strictly decreases
`2 * (w - i) + (1 if the ignore flag is clear)` while consuming one unit of
fuel, so any two sufficient fuels give the same result: the fuel-exhaustion
branch of `Connection.scan` is unreachable from `Connection.read`. -/
theorem Connection.scan_fuel_irrel :
    ∀ (f1 f2 cap : Nat) (s : Connection) (i : Nat) (ig : Bool) (out : List Nat),
      2 * (s.w - i) + (if ig = true then 0 else 1) < f1 →
      2 * (s.w - i) + (if ig = true then 0 else 1) < f2 →
      Connection.scan f1 cap s i ig out = Connection.scan f2 cap s i ig out := by
  intro f1
  induction f1 with
  | zero => intro f2 cap s i ig out h1 h2; omega
  | succ m ih =>
    intro f2 cap s i ig out h1 h2
    cases f2 with
    | zero => omega
    | succ n =>
      simp only [Connection.scan]
      repeat' split
      all_goals try rfl
      all_goals first
        | (have hw := Connection.iacStep_next_w (by assumption)
           apply ih <;> (simp_all; omega))
        | (apply ih <;> (simp_all; omega))
        | (apply ih <;> (simp_all; try omega))

theorem Connection.handleNegotiation_sets (s : Connection) :
    s.clientWont <+: s.handleNegotiation.clientWont ∧
    s.clientDont <+: s.handleNegotiation.clientDont := by
  unfold Connection.handleNegotiation
  repeat' split
  all_goals simp [List.prefix_append]

theorem Connection.iacStep_sets {s : Connection} {i ch : Nat} :
    (∀ s', s.iacStep i ch = StepRes.next s' →
      s.clientWont <+: s'.clientWont ∧ s.clientDont <+: s'.clientDont) ∧
    (∀ s', s.iacStep i ch = StepRes.stop s' →
      s.clientWont <+: s'.clientWont ∧ s.clientDont <+: s'.clientDont) := by
  constructor <;> intro s' h <;>
    (simp only [Connection.iacStep] at h
     repeat' split at h
     all_goals try (injection h with h; subst h)
     all_goals try cases h
     all_goals try simp
     all_goals exact Connection.handleNegotiation_sets { s with option := ch })

/-- Every transition of the scan loop leaves the refusal sets alone or
appends to them (via `handleNegotiation`); no transition removes entries. -/
theorem Connection.scan_sets_mono :
    ∀ (fuel cap : Nat) (s : Connection) (i : Nat) (ig : Bool) (out : List Nat)
      (s' : Connection) (out' : List Nat),
      Connection.scan fuel cap s i ig out = Except.ok (s', out') →
      s.clientWont <+: s'.clientWont ∧ s.clientDont <+: s'.clientDont := by
  intro fuel
  induction fuel with
  | zero =>
    intro cap s i ig out s' out' h
    simp only [Connection.scan, Except.ok.injEq, Prod.mk.injEq] at h
    obtain ⟨h1, h2⟩ := h
    subst h1
    exact ⟨List.prefix_refl _, List.prefix_refl _⟩
  | succ m ih =>
    intro cap s i ig out s' out' h
    simp only [Connection.scan] at h
    repeat' split at h
    all_goals first
      | exact Except.noConfusion h
      | (simp only [Except.ok.injEq, Prod.mk.injEq] at h
         obtain ⟨h1, h2⟩ := h
         subst h1
         first
           | exact ⟨List.prefix_refl _, List.prefix_refl _⟩
           | exact Connection.iacStep_sets.2 _ (by assumption))
      | (have hh := ih _ _ _ _ _ _ _ h
         exact hh)
      | (have h2 := ih _ _ _ _ _ _ _ h
         have h1 := Connection.iacStep_sets.1 _ (by assumption)
         exact ⟨h1.1.trans h2.1, h1.2.trans h2.2⟩)

theorem Connection.fill_sets (s : Connection) (req : Nat) :
    (s.fill req).1.clientWont = s.clientWont ∧ (s.fill req).1.clientDont = s.clientDont := by
  obtain ⟨sc, bu, r, w, ia, cm, op, hd, cw, cd, em, ev⟩ := s
  unfold Connection.fill
  split_ifs <;> rcases sc with _ | ⟨_ | chunk, rest⟩ <;> simp [apply_ite]

/-- A decode pass never removes entries from the refusal sets. -/
theorem Connection.read_sets_mono (s : Connection) (cap : Nat) :
    ∀ s' out e, Connection.read s cap = Except.ok (s', out, e) →
      s.clientWont <+: s'.clientWont ∧ s.clientDont <+: s'.clientDont := by
  intro s' out e h
  unfold Connection.read at h
  have hf := Connection.fill_sets s cap
  split at h
  · rename_i s1 e1 heq
    simp only [Except.ok.injEq, Prod.mk.injEq] at h
    obtain ⟨h1, h2, h3⟩ := h
    subst h1
    rw [heq] at hf
    exact ⟨hf.1 ▸ List.prefix_refl _, hf.2 ▸ List.prefix_refl _⟩
  · rename_i s1 heq
    split at h
    · exact Except.noConfusion h
    · rename_i s2out hscan
      simp only [Except.ok.injEq, Prod.mk.injEq] at h
      obtain ⟨h1, h2, h3⟩ := h
      subst h1
      have hm := Connection.scan_sets_mono _ _ _ _ _ _ _ _ hscan
      rw [heq] at hf
      constructor
      · exact hf.1 ▸ hm.1
      · exact hf.2 ▸ hm.2

/-- Bridge from an exhaustive boolean check over `List.range n` to a bounded
universal statement (`Nat.decidableBallLT` itself does not reduce). -/
theorem decide_ball_of_range {n : Nat} {P : Nat → Prop} [DecidablePred P]
    (h : ((List.range n).all fun o => decide (P o)) = true) : ∀ o, o < n → P o := by
  intro o ho
  have := List.all_eq_true.mp h o (List.mem_range.mpr ho)
  exact of_decide_eq_true this

/-- C1: the claim states that for every byte sequence `D`, writing `D` through
`Connection.Write` and decoding the produced wire bytes yields `D` exactly.
The code violates it: the flush guard `lastWrite < i-1` skips a one-byte run
preceding an escape marker, so `Write` on `D = [0x41, 0xFF]` transmits only
`FF FF` (dropping `0x41`) while still reporting success, and decoding those
wire bytes yields `[0xFF] ≠ D`.  This theorem evaluates the code at that
failing input. -/
theorem C1_write_drops_byte_before_marker :
    Connection.Write [65, 255] = (2, [255, 255]) ∧
    readGoProj (Connection.Read (NewConnection [some [255, 255]] []) 16) =
      some ⟨[255], none, [], [], [], [], 1⟩ := by
  constructor
  · decide
  · decide

/-- C2: the claim states that one-byte-per-transport-read delivery of a
complete negotiation exchange produces the same handler invocations and the
same application-byte output as single-read delivery.  The code violates it:
delivered whole, `IAC WILL 24` produces no application bytes and emits
`IAC DONT 24`; delivered one byte per read, the decode pass that sees the
lone `IAC` leaks it to the application via the unconditional trailing copy
of `buf[r:w]`, so the public read returns the byte `0xFF` after one pass and
no reply is ever emitted.  This theorem evaluates both runs. -/
theorem C2_split_delivery_diverges :
    readGoProj (Connection.Read (NewConnection [some [255, 251, 24]] []) 16) =
      some ⟨[], some RdErr.eof, [255, 254, 24], [], [], [], 10⟩ ∧
    readGoProj (Connection.Read (NewConnection [some [255], some [251], some [24]] []) 16) =
      some ⟨[255], none, [], [], [], [], 1⟩ := by
  constructor
  · decide
  · decide

/-- C3: the claim states that while the subnegotiation terminator is not yet
among the available raw bytes, the decode pass stops with parser state
preserved and delivers none of the body as application data.  The code
violates it: with `IAC SB 24 0x41` buffered (option 24 registered,
terminator still missing), the trailing copy of `buf[r:w]` delivers the
body byte `0x41` as application data and advances the read cursor past it.
This theorem evaluates the decode pass at that failing input. -/
theorem C3_incomplete_subneg_leaks_body :
    readProj (Connection.read (NewConnection [some [255, 250, 24, 65]] [24]) 16) =
      some ⟨[65], none, [], [], [], [], 1⟩ := by
  decide

set_option maxRecDepth 80000000 in
/-- C4: negotiation dispatch.  For every option byte `o` (0–255): decoding
`IAC WILL o` with no handler registered emits exactly `IAC DONT o` and
produces no application bytes; `IAC DO o` with no handler emits exactly
`IAC WONT o`; with a handler registered, WILL invokes `HandleWill` and DO
invokes `HandleDo` and nothing is emitted; `IAC WONT o` records `o` in
`clientWont` and `IAC DONT o` records `o` in `clientDont`, with no reply,
no callback and no application bytes.  Moreover every decode pass only
extends the refusal sets (they are append-only, never cleared). -/
theorem C4_negotiation_dispatch :
    (∀ o : Nat, o < 256 →
      readProj (Connection.read (NewConnection [some [IAC, WILL, o]] []) 16) =
        some ⟨[], none, [IAC, DONT, o], [], [], [], 1⟩ ∧
      readProj (Connection.read (NewConnection [some [IAC, DO, o]] []) 16) =
        some ⟨[], none, [IAC, WONT, o], [], [], [], 1⟩ ∧
      readProj (Connection.read (NewConnection [some [IAC, WILL, o]] [o]) 16) =
        some ⟨[], none, [], [Event.handleWill o], [], [], 1⟩ ∧
      readProj (Connection.read (NewConnection [some [IAC, DO, o]] [o]) 16) =
        some ⟨[], none, [], [Event.handleDo o], [], [], 1⟩ ∧
      readProj (Connection.read (NewConnection [some [IAC, WONT, o]] [o]) 16) =
        some ⟨[], none, [], [], [o], [], 1⟩ ∧
      readProj (Connection.read (NewConnection [some [IAC, DONT, o]] [o]) 16) =
        some ⟨[], none, [], [], [], [o], 1⟩) ∧
    (∀ (s : Connection) (cap : Nat),
      match Connection.read s cap with
      | Except.ok (s', _, _) =>
          s.clientWont <+: s'.clientWont ∧ s.clientDont <+: s'.clientDont
      | Except.error _ => True) := by
  constructor
  · have h1 : ∀ o, o < 256 →
        readProj (Connection.read (NewConnection [some [IAC, WILL, o]] []) 16) =
          some ⟨[], none, [IAC, DONT, o], [], [], [], 1⟩ :=
      decide_ball_of_range (by decide)
    have h2 : ∀ o, o < 256 →
        readProj (Connection.read (NewConnection [some [IAC, DO, o]] []) 16) =
          some ⟨[], none, [IAC, WONT, o], [], [], [], 1⟩ :=
      decide_ball_of_range (by decide)
    have h3 : ∀ o, o < 256 →
        readProj (Connection.read (NewConnection [some [IAC, WILL, o]] [o]) 16) =
          some ⟨[], none, [], [Event.handleWill o], [], [], 1⟩ :=
      decide_ball_of_range (by decide)
    have h4 : ∀ o, o < 256 →
        readProj (Connection.read (NewConnection [some [IAC, DO, o]] [o]) 16) =
          some ⟨[], none, [], [Event.handleDo o], [], [], 1⟩ :=
      decide_ball_of_range (by decide)
    have h5 : ∀ o, o < 256 →
        readProj (Connection.read (NewConnection [some [IAC, WONT, o]] [o]) 16) =
          some ⟨[], none, [], [], [o], [], 1⟩ :=
      decide_ball_of_range (by decide)
    have h6 : ∀ o, o < 256 →
        readProj (Connection.read (NewConnection [some [IAC, DONT, o]] [o]) 16) =
          some ⟨[], none, [], [], [], [o], 1⟩ :=
      decide_ball_of_range (by decide)
    intro o ho
    exact ⟨h1 o ho, h2 o ho, h3 o ho, h4 o ho, h5 o ho, h6 o ho⟩
  · intro s cap
    rcases hr : Connection.read s cap with e | ⟨s', out, e⟩
    · simp
    · simp only []
      exact Connection.read_sets_mono s cap s' out e hr

set_option maxRecDepth 80000000 in
/-- C4 witness: the dispatch part applied at the concrete option byte 3 and
the append-only part applied at a concrete connection. -/
theorem C4_negotiation_dispatch_witness :
    (readProj (Connection.read (NewConnection [some [255, 251, 3]] []) 16) =
        some ⟨[], none, [255, 254, 3], [], [], [], 1⟩) ∧
    (match Connection.read (NewConnection [some [255, 252, 7]] []) 16 with
      | Except.ok (s', _, _) =>
          (NewConnection [some [255, 252, 7]] []).clientWont <+: s'.clientWont ∧
          (NewConnection [some [255, 252, 7]] []).clientDont <+: s'.clientDont
      | Except.error _ => True) :=
  ⟨(C4_negotiation_dispatch.1 3 (by decide)).1, C4_negotiation_dispatch.2 _ 16⟩

/-- C5: the claim states that a successful `Connection.Write` returns the
number of input bytes accepted (`len(b)`), not the number of wire bytes
transmitted.  The code violates it: `n` accumulates the underlying write
sizes, so each escape marker contributes 2; `Write` on the one-byte input
`[0xFF]` succeeds and returns `n = 2`.  This theorem evaluates the code at
that failing input. -/
theorem C5_write_returns_wire_count :
    Connection.Write [255] = (2, [255, 255]) := by
  decide

/-- C6: the claim states that every buffer access of the decode pass is in
bounds, the look-behind `buf[i-1]` reads in particular happening only at
`i > 0`.  The code violates it: after `IAC SB 24 0x41` is consumed in one
pass (the in-progress-sequence flags persist), a next pass whose buffer
starts with the terminator `IAC SE` evaluates `c.buf[i-1]` at `i = 0`,
an out-of-range index (runtime abort, modelled as `Except.error ()`).
This theorem evaluates the two consecutive decode passes. -/
theorem C6_resumed_sequence_reads_out_of_range :
    (Connection.read (NewConnection [some [255, 250, 24, 65], some [255, 240]] [24]) 16).isOk
      = true ∧
    (match Connection.read (NewConnection [some [255, 250, 24, 65], some [255, 240]] [24]) 16 with
      | Except.ok (s1, _, _) => (Connection.read s1 16).isOk
      | Except.error _ => true) = false := by
  constructor
  · decide
  · decide

/-- C7: the claim states that a marker byte immediately following another
marker inside a command-captured control sequence is removed from the
stream with the remaining buffered bytes preserved in order.  The code
violates it: `copy(c.buf[:i], c.buf[i+1:])` copies the tail over the
*head* of the buffer (and never shortens `w`), so for
`IAC SB 24 0x41 IAC IAC 0x42 IAC SE` the handler receives the corrupted
body `[0, 0, 0xFF, 0x42]` instead of `[0x41, 0xFF, 0x42]`.  This theorem
evaluates the decode pass at that failing input. -/
theorem C7_embedded_marker_collapse_corrupts :
    readProj (Connection.read
        (NewConnection [some [255, 250, 24, 65, 255, 255, 66, 255, 240]] [24]) 16) =
      some ⟨[], none, [], [Event.handleSB 24 [0, 0, 255, 66]], [], [], 1⟩ := by
  decide

theorem Connection.ReadAux_ok :
    ∀ (fuel cap : Nat) (s : Connection) (out0 : List Nat) (e0 : Option RdErr) (k0 : Nat)
      (s' : Connection) (out : List Nat) (e : Option RdErr) (k : Nat),
      Connection.ReadAux cap fuel s out0 e0 k0 = Except.ok (s', out, e, k) →
      k ≤ k0 + fuel ∧
      (¬(out0 = [] ∧ 0 < cap) → out = out0 ∧ e = e0 ∧ k = k0) ∧
      (k < k0 + fuel → out ≠ [] ∨ cap = 0) := by
  intro fuel
  induction fuel with
  | zero =>
    intro cap s out0 e0 k0 s' out e k h
    simp only [Connection.ReadAux, Except.ok.injEq, Prod.mk.injEq] at h
    obtain ⟨-, h2, h3, h4⟩ := h
    subst h2; subst h3; subst h4
    exact ⟨Nat.le_refl _, fun _ => ⟨rfl, rfl, rfl⟩, fun hk => absurd hk (by omega)⟩
  | succ m ih =>
    intro cap s out0 e0 k0 s' out e k h
    simp only [Connection.ReadAux] at h
    split at h
    · rename_i hcond
      split at h
      · exact Except.noConfusion h
      · rename_i s1 out1 e1 heq
        have hi := ih cap s1 out1 e1 (k0 + 1) s' out e k h
        refine ⟨by omega, ?_, ?_⟩
        · intro hnc
          exact absurd ⟨List.length_eq_zero.mp hcond.1, hcond.2⟩ hnc
        · intro hk
          exact hi.2.2 (by omega)
    · rename_i hcond
      simp only [Except.ok.injEq, Prod.mk.injEq] at h
      obtain ⟨-, h2, h3, h4⟩ := h
      subst h2; subst h3; subst h4
      refine ⟨by omega, fun _ => ⟨rfl, rfl, rfl⟩, fun _ => ?_⟩
      rcases not_and_or.mp hcond with h | h
      · exact Or.inl fun hnil => h (by simp [hnil])
      · exact Or.inr (by omega)

/-- C9 (amended): the public read invokes the internal decode pass at most
10 times, exits early only when a pass has produced at least one
application byte or the caller's buffer is empty (in particular an error
from a pass does not stop the retry loop), and with an empty caller buffer
returns zero bytes and a nil error without any pass.  The unamended clause
"stops as soon as an error occurs" is refuted by
`C9_error_does_not_stop_retry`. -/
theorem C9_retry_loop_behaviour :
    ∀ (s : Connection) (cap : Nat),
      match Connection.Read s cap with
      | Except.ok (_, out, e, k) =>
          k ≤ maxReadAttempts ∧
          (cap = 0 → out = [] ∧ e = none ∧ k = 0) ∧
          (k < maxReadAttempts → 0 < cap → out ≠ [])
      | Except.error _ => True := by
  intro s cap
  rcases hr : Connection.Read s cap with u | ⟨s', out, e, k⟩
  · simp
  · simp only []
    have := Connection.ReadAux_ok maxReadAttempts cap s [] none 0 s' out e k hr
    refine ⟨by omega, ?_, ?_⟩
    · intro hcap
      have h0 := this.2.1 (by simp [hcap])
      exact ⟨h0.1, h0.2.1, h0.2.2⟩
    · intro hk hcap
      rcases this.2.2 (by omega) with h | h
      · exact h
      · omega

/-- C9 witness: the amended retry-loop properties at a concrete connection
and caller-buffer length. -/
theorem C9_retry_loop_behaviour_witness :
    match Connection.Read (NewConnection [] []) 0 with
    | Except.ok (_, out, e, k) =>
        k ≤ maxReadAttempts ∧
        (0 = 0 → out = [] ∧ e = none ∧ k = 0) ∧
        (k < maxReadAttempts → 0 < 0 → out ≠ [])
    | Except.error _ => True :=
  C9_retry_loop_behaviour (NewConnection [] []) 0

/-- C9 counterexample: the claim states that the public read stops as soon
as an error occurs.  It is false: the loop condition checks only
`n == 0 && len(b) > 0`, so after a first pass that returns `(0, error)` a
second pass runs; here it succeeds, and `Read` returns one byte, a nil
error and a pass count of 2 — the pass-1 transport error neither stopped
the loop nor reached the caller. -/
theorem C9_error_does_not_stop_retry :
    readGoProj (Connection.Read (NewConnection [none, some [65]] []) 8) =
      some ⟨[65], none, [], [], [], [], 2⟩ := by
  decide

end Telnet

namespace Telnet

theorem goCopy_length (dst : List Nat) (off : Nat) (src : List Nat) :
    (goCopy dst off src).length = dst.length := by
  unfold goCopy
  simp only [List.length_append, List.length_take, List.length_drop]
  omega

theorem Connection.handleNegotiation_r (s : Connection) :
    s.handleNegotiation.r = s.r := by
  unfold Connection.handleNegotiation
  repeat' split
  all_goals simp

theorem Connection.handleNegotiation_buf (s : Connection) :
    s.handleNegotiation.buf = s.buf := by
  unfold Connection.handleNegotiation
  repeat' split
  all_goals simp

theorem Connection.handleNegotiation_cmd (s : Connection) :
    s.handleNegotiation.cmd = s.cmd := by
  unfold Connection.handleNegotiation
  repeat' split
  all_goals simp

theorem Connection.iacStep_inv {s : Connection} {i ch : Nat}
    (hrw : s.r ≤ s.w) (hwl : s.w ≤ s.buf.length) (hri : s.r ≤ i + 2)
    (hcmd : s.cmd ≠ SB → s.r ≤ i) (hi : i < s.w) :
    (∀ s', s.iacStep i ch = StepRes.next s' →
      s'.r ≤ s'.w ∧ s'.w ≤ s'.buf.length ∧ s'.r ≤ (i + 1) + 2 ∧
      (s'.cmd ≠ SB → s'.r ≤ i + 1)) ∧
    (∀ s', s.iacStep i ch = StepRes.stop s' →
      s'.r ≤ s'.w ∧ s'.w ≤ s'.buf.length) := by
  constructor <;> intro s' h <;>
    (simp only [Connection.iacStep] at h
     repeat' split at h
     all_goals try (injection h with h; subst h)
     all_goals try cases h
     all_goals simp_all [Connection.handleNegotiation_r, Connection.handleNegotiation_w,
       Connection.handleNegotiation_buf, Connection.handleNegotiation_cmd, IAC, SB, SE,
       WILL, WONT, DO, DONT]
     all_goals omega)

end Telnet

namespace Telnet

theorem Connection.scan_inv :
    ∀ (fuel cap : Nat) (s : Connection) (i : Nat) (ig : Bool) (out : List Nat)
      (s' : Connection) (out' : List Nat),
      s.r ≤ s.w → s.w ≤ s.buf.length → s.r ≤ i + 2 → (s.cmd ≠ SB → s.r ≤ i) →
      Connection.scan fuel cap s i ig out = Except.ok (s', out') →
      s'.r ≤ s'.w ∧ s'.w ≤ s'.buf.length := by
  intro fuel
  induction fuel with
  | zero =>
    intro cap s i ig out s' out' h1 h2 h3 h4 h
    simp only [Connection.scan, Except.ok.injEq, Prod.mk.injEq] at h
    obtain ⟨hs, -⟩ := h
    subst hs
    exact ⟨h1, h2⟩
  | succ m ih =>
    intro cap s i ig out s' out' h1 h2 h3 h4 h
    simp only [Connection.scan] at h
    repeat' split at h
    all_goals try exact Except.noConfusion h
    all_goals try
      (simp only [Except.ok.injEq, Prod.mk.injEq] at h
       obtain ⟨hs, -⟩ := h
       subst hs
       first
         | exact ⟨h1, h2⟩
         | exact (Connection.iacStep_inv h1 h2 h3 h4 (by omega)).2 _ (by assumption))
    all_goals try
      (have hx := (Connection.iacStep_inv h1 h2 h3 h4 (by omega)).1 _ (by assumption)
       exact ih _ _ _ _ _ _ _ hx.1 hx.2.1 hx.2.2.1 hx.2.2.2 h)
    all_goals
      (refine ih _ _ _ _ _ _ _ ?_ ?_ ?_ ?_ h
       all_goals clear h ih
       all_goals simp_all [IAC, SB, SE, WILL, WONT, DO, DONT,
         List.length_append, List.length_take, List.length_drop]
       all_goals omega)

end Telnet

namespace Telnet

set_option maxHeartbeats 1000000 in
theorem Connection.fill_inv (s : Connection) (req : Nat)
    (h1 : s.r ≤ s.w) (h2 : s.w ≤ s.buf.length) :
    (s.fill req).1.r ≤ (s.fill req).1.w ∧ (s.fill req).1.w ≤ (s.fill req).1.buf.length := by
  obtain ⟨sc, bu, r, w, ia, cm, op, hd, cw, cd, em, ev⟩ := s
  simp only [] at h1 h2
  unfold Connection.fill
  split_ifs <;> rcases sc with _ | ⟨_ | chunk, rest⟩ <;>
    (simp_all [apply_ite, goCopy_length, List.length_replicate, List.length_append,
       List.length_take, List.length_drop]
     try omega
     try (split_ifs <;> omega))

theorem Connection.read_inv (s : Connection) (cap : Nat)
    (h1 : s.r ≤ s.w) (h2 : s.w ≤ s.buf.length) :
    ∀ s' out e, Connection.read s cap = Except.ok (s', out, e) →
      s'.r ≤ s'.w ∧ s'.w ≤ s'.buf.length := by
  intro s' out e h
  have hf := Connection.fill_inv s cap h1 h2
  unfold Connection.read at h
  split at h
  · rename_i s1 e1 heq
    simp only [Except.ok.injEq, Prod.mk.injEq] at h
    obtain ⟨hs, -, -⟩ := h
    subst hs
    rw [heq] at hf
    exact hf
  · rename_i s1 heq
    rw [heq] at hf
    simp only [] at hf
    split at h
    · exact Except.noConfusion h
    · rename_i s2out hscan
      have hs2 := Connection.scan_inv _ _ _ _ _ _ _ _ hf.1 hf.2 (by omega)
        (fun _ => Nat.le_refl _) hscan
      simp only [Except.ok.injEq, Prod.mk.injEq] at h
      obtain ⟨hs, -, -⟩ := h
      subst hs
      constructor
      · simp only []
        omega
      · simpa using hs2.2

end Telnet

namespace Telnet

theorem C8_cursor_invariant :
    (∀ (script : List (Option (List Nat))) (handlers : List Nat),
      (NewConnection script handlers).r ≤ (NewConnection script handlers).w ∧
      (NewConnection script handlers).w ≤ (NewConnection script handlers).buf.length) ∧
    (∀ (s : Connection) (req : Nat), s.r ≤ s.w → s.w ≤ s.buf.length →
      (s.fill req).1.r ≤ (s.fill req).1.w ∧ (s.fill req).1.w ≤ (s.fill req).1.buf.length) ∧
    (∀ (s : Connection) (cap : Nat), s.r ≤ s.w → s.w ≤ s.buf.length →
      match Connection.read s cap with
      | Except.ok (s', _, _) => s'.r ≤ s'.w ∧ s'.w ≤ s'.buf.length
      | Except.error _ => True) := by
  refine ⟨?_, ?_, ?_⟩
  · exact fun script handlers => ⟨Nat.le_refl 0, Nat.zero_le _⟩
  · intro s req h1 h2
    exact Connection.fill_inv s req h1 h2
  · intro s cap h1 h2
    rcases hr : Connection.read s cap with u | ⟨s', out, e⟩
    · simp
    · simp only []
      exact Connection.read_inv s cap h1 h2 s' out e hr

set_option maxRecDepth 80000000 in
theorem C8_cursor_invariant_witness :
    ((NewConnection [] []).r ≤ (NewConnection [] []).w ∧
      (NewConnection [] []).w ≤ (NewConnection [] []).buf.length) ∧
    (((NewConnection [] []).fill 8).1.r ≤ ((NewConnection [] []).fill 8).1.w ∧
      ((NewConnection [] []).fill 8).1.w ≤ ((NewConnection [] []).fill 8).1.buf.length) ∧
    (match Connection.read (NewConnection [some [65]] []) 8 with
      | Except.ok (s', _, _) => s'.r ≤ s'.w ∧ s'.w ≤ s'.buf.length
      | Except.error _ => True) :=
  ⟨C8_cursor_invariant.1 [] [],
   C8_cursor_invariant.2.1 (NewConnection [] []) 8 (by decide) (by decide),
   C8_cursor_invariant.2.2 (NewConnection [some [65]] []) 8 (by decide) (by decide)⟩

end Telnet

namespace Telnet

theorem Connection.scan_exit (fuel cap : Nat) (s : Connection) (i : Nat) (ig : Bool)
    (out : List Nat) (h : ¬(i < s.w ∧ out.length < cap)) :
    Connection.scan fuel cap s i ig out = Except.ok (s, out) := by
  cases fuel with
  | zero => rfl
  | succ m => simp only [Connection.scan, if_neg h]

theorem Connection.scan_step_plain (fuel cap : Nat) (s : Connection) (i : Nat) (ig : Bool)
    (out : List Nat) (hi : i < s.w) (ho : out.length < cap)
    (hch : s.buf.getD i 0 ≠ IAC) (hiac : s.iac = false) :
    Connection.scan (fuel + 1) cap s i ig out = Connection.scan fuel cap s (i + 1) false out := by
  simp only [Connection.scan, if_pos (And.intro hi ho)]
  rw [if_neg (fun hc => hch hc.1)]
  simp [Connection.iacStep, hiac]

theorem Connection.scan_skip_plain :
    ∀ (d fuel cap : Nat) (s : Connection) (i : Nat) (out : List Nat),
      (∀ j, i ≤ j → j < i + d → s.buf.getD j 0 ≠ IAC) →
      i + d ≤ s.w → out.length < cap → s.iac = false →
      Connection.scan (fuel + d) cap s i false out =
        Connection.scan fuel cap s (i + d) false out := by
  intro d
  induction d with
  | zero => intro fuel cap s i out _ _ _ _; rfl
  | succ m ih =>
    intro fuel cap s i out hb hw ho hiac
    have h1 : Connection.scan (fuel + (m + 1)) cap s i false out =
        Connection.scan (fuel + m) cap s (i + 1) false out := by
      rw [show fuel + (m + 1) = (fuel + m) + 1 from by omega]
      exact Connection.scan_step_plain (fuel + m) cap s i false out (by omega) ho
        (hb i (Nat.le_refl i) (by omega)) hiac
    rw [h1, ih fuel cap s (i + 1) out (fun j hj1 hj2 => hb j (by omega) (by omega))
      (by omega) ho hiac, show i + 1 + m = i + (m + 1) from by omega]

end Telnet

namespace Telnet

theorem Connection.scan_step_start (fuel cap : Nat) (s : Connection) (i : Nat)
    (out : List Nat) (hi : i < s.w) (ho : out.length < cap)
    (hch : s.buf.getD i 0 = IAC) (hiac : s.iac = false) :
    Connection.scan (fuel + 1) cap s i false out =
      Connection.scan fuel cap
        { s with r := s.r + min (cap - out.length) (i - s.r), iac := true } (i + 1) false
        (out ++ (s.buf.drop s.r).take (min (cap - out.length) (i - s.r))) := by
  simp only [Connection.scan, if_pos (And.intro hi ho)]
  rw [if_pos (And.intro hch trivial), if_neg (by simp [hiac]), if_neg (by simp [hiac])]

theorem Connection.scan_step_escape (fuel cap : Nat) (s : Connection) (i : Nat)
    (out : List Nat) (hi : i < s.w) (ho : out.length < cap)
    (hch : s.buf.getD i 0 = IAC) (hiac : s.iac = true) (hcmd : s.cmd = 0) :
    Connection.scan (fuel + 1) cap s i false out =
      Connection.scan fuel cap
        { s with r := s.r + min (cap - out.length) (i - s.r) + 1, iac := false } (i + 1) false
        (out ++ (s.buf.drop s.r).take (min (cap - out.length) (i - s.r))) := by
  simp only [Connection.scan, if_pos (And.intro hi ho)]
  rw [if_pos (And.intro hch trivial), if_pos (And.intro hiac hcmd)]

end Telnet

namespace Telnet

theorem Connection.fill_fresh (chunk : List Nat) (hs : List Nat)
    (hlen : chunk.length ≤ 256) :
    (NewConnection [some chunk] hs).fill 256 =
      ({ script := [], buf := chunk ++ List.replicate (256 - chunk.length) 0, r := 0,
         w := chunk.length, iac := false, cmd := 0, option := 0, handlers := hs,
         clientWont := [], clientDont := [], emitted := [], events := [] }, none) := by
  unfold Connection.fill NewConnection
  simp only [goCopy, List.length_replicate, Nat.lt_irrefl, Nat.sub_zero, Nat.zero_add,
    List.take_zero, List.nil_append, Nat.le_refl, List.drop_replicate,
    List.take_of_length_le hlen, min_eq_right hlen, if_false, if_neg (Nat.lt_irrefl 256),
    if_pos hlen]
  simp [List.drop_replicate]

end Telnet

namespace Telnet

theorem Connection.scan_step_startE (fuel cap : Nat) (s : Connection) (i r' : Nat)
    (out out' : List Nat) (hi : i < s.w) (ho : out.length < cap)
    (hch : s.buf.getD i 0 = IAC) (hiac : s.iac = false)
    (hr' : r' = s.r + min (cap - out.length) (i - s.r))
    (hout' : out' = out ++ (s.buf.drop s.r).take (min (cap - out.length) (i - s.r))) :
    Connection.scan (fuel + 1) cap s i false out =
      Connection.scan fuel cap { s with r := r', iac := true } (i + 1) false out' := by
  subst hr'
  subst hout'
  exact Connection.scan_step_start fuel cap s i out hi ho hch hiac

theorem Connection.scan_step_escapeE (fuel cap : Nat) (s : Connection) (i r' : Nat)
    (out out' : List Nat) (hi : i < s.w) (ho : out.length < cap)
    (hch : s.buf.getD i 0 = IAC) (hiac : s.iac = true) (hcmd : s.cmd = 0)
    (hr' : r' = s.r + min (cap - out.length) (i - s.r) + 1)
    (hout' : out' = out ++ (s.buf.drop s.r).take (min (cap - out.length) (i - s.r))) :
    Connection.scan (fuel + 1) cap s i false out =
      Connection.scan fuel cap { s with r := r', iac := false } (i + 1) false out' := by
  subst hr'
  subst hout'
  exact Connection.scan_step_escape fuel cap s i out hi ho hch hiac hcmd

end Telnet

namespace Telnet

set_option maxRecDepth 8000000 in
theorem C10_doubled_marker_literal (pre post hs : List Nat)
    (h1 : (255 : Nat) ∉ pre) (h2 : (255 : Nat) ∉ post)
    (h3 : pre.length + post.length + 2 ≤ 256) :
    match Connection.read (NewConnection [some (pre ++ [255, 255] ++ post)] hs) 256 with
    | Except.ok (s', out, e) =>
        out = pre ++ 255 :: post ∧ e = none ∧
        s'.events = [] ∧ s'.emitted = [] ∧ s'.iac = false ∧ s'.cmd = 0
    | Except.error _ => False := by
  have hfill := Connection.fill_fresh (pre ++ [255, 255] ++ post) hs
    (by simp only [List.append_assoc, List.length_append, List.length_cons,
          List.length_nil]
        omega)
  set L := (pre ++ [255, 255] ++ post).length with hLdef
  have hL : L = pre.length + post.length + 2 := by
    rw [hLdef]
    simp only [List.append_assoc, List.length_append, List.length_cons, List.length_nil]
    omega
  set Z : List Nat := List.replicate (256 - L) 0 with hZ
  set B : List Nat := (pre ++ [255, 255] ++ post) ++ Z with hBdef
  have hBassoc : B = pre ++ (255 :: 255 :: (post ++ Z)) := by
    rw [hBdef]
    simp [List.append_assoc]
  -- byte facts
  have hpre : ∀ j, j < pre.length → B.getD j 0 ≠ 255 := by
    intro j hj
    rw [hBassoc, List.getD_append _ _ _ _ hj, List.getD_eq_getElem _ _ hj]
    exact fun hc => h1 (hc ▸ List.getElem_mem hj)
  have hp0 : B.getD pre.length 0 = 255 := by
    rw [hBassoc, List.getD_append_right _ _ _ _ (Nat.le_refl _)]
    simp
  have hp1 : B.getD (pre.length + 1) 0 = 255 := by
    rw [hBassoc, List.getD_append_right _ _ _ _ (by omega),
      show pre.length + 1 - pre.length = 1 from by omega]
    simp
  have hpost : ∀ t, t < post.length → B.getD (pre.length + 2 + t) 0 ≠ 255 := by
    intro t ht
    rw [hBassoc, List.getD_append_right _ _ _ _ (by omega),
      show pre.length + 2 + t - pre.length = (t + 1) + 1 from by omega,
      List.getD_cons_succ, List.getD_cons_succ, List.getD_append _ _ _ _ ht,
      List.getD_eq_getElem _ _ ht]
    exact fun hc => h2 (hc ▸ List.getElem_mem ht)
  have htakep : B.take pre.length = pre := by
    rw [hBassoc]
    exact List.take_left pre _
  have hdropp : B.drop pre.length = 255 :: 255 :: (post ++ Z) := by
    rw [hBassoc]
    exact List.drop_left pre _
  have hdropp2 : B.drop (pre.length + 2) = post ++ Z := by
    rw [← List.drop_drop, hdropp]
    rfl
  set S1 : Connection :=
    ({ script := [], buf := B, r := 0, w := L, iac := false, cmd := 0,
       option := 0, handlers := hs, clientWont := [], clientDont := [], emitted := [],
       events := [] }) with hS1
  -- the scan: skip pre, flush at the first marker, copy the literal at the second,
  -- skip post, exit at w
  have hscan : Connection.scan (2 * (L - 0) + 2) 256 S1 0 false [] =
      Except.ok
        (({ script := [], buf := B, r := pre.length + 2, w := L, iac := false, cmd := 0,
            option := 0, handlers := hs, clientWont := [], clientDont := [], emitted := [],
            events := [] } : Connection), pre ++ [255]) := by
    rw [show 2 * (L - 0) + 2 = ((((L + 2) + post.length) + 1) + 1) + pre.length from by omega]
    rw [Connection.scan_skip_plain pre.length _ 256 S1 0 []
      (fun j hj1 hj2 => hpre j (by omega))
      (by show 0 + pre.length ≤ L; omega)
      (by simp)
      rfl]
    rw [show (0 : Nat) + pre.length = pre.length from by omega]
    rw [Connection.scan_step_startE (((L + 2) + post.length) + 1) 256 S1 pre.length
      pre.length [] pre
      (by show pre.length < L; omega)
      (by simp)
      hp0
      rfl
      (by show pre.length = 0 + min (256 - 0) (pre.length - 0); omega)
      (by show pre = [] ++ (B.drop 0).take (min (256 - 0) (pre.length - 0))
          rw [List.nil_append, List.drop_zero,
            show min (256 - 0) (pre.length - 0) = pre.length from by omega]
          exact htakep.symm)]
    rw [Connection.scan_step_escapeE ((L + 2) + post.length) 256
      { S1 with r := pre.length, iac := true } (pre.length + 1) (pre.length + 2)
      pre (pre ++ [255])
      (by show pre.length + 1 < L; omega)
      (by show pre.length < 256; omega)
      hp1
      rfl
      rfl
      (by show pre.length + 2 =
            pre.length + min (256 - pre.length) (pre.length + 1 - pre.length) + 1
          omega)
      (by show pre ++ [255] =
            pre ++ (B.drop pre.length).take (min (256 - pre.length) (pre.length + 1 - pre.length))
          rw [show min (256 - pre.length) (pre.length + 1 - pre.length) = 1 from by omega,
            hdropp]
          rfl)]
    rw [show (pre.length + 1) + 1 = pre.length + 2 from by omega]
    rw [show (L + 2) + post.length = (L + 2) + post.length from rfl]
    rw [Connection.scan_skip_plain post.length (L + 2) 256 _ (pre.length + 2) (pre ++ [255])
      (fun j hj1 hj2 => by
        obtain ⟨t, rfl⟩ : ∃ t, j = pre.length + 2 + t := ⟨j - (pre.length + 2), by omega⟩
        exact hpost t (by omega))
      (by show pre.length + 2 + post.length ≤ L; omega)
      (by simp only [List.length_append, List.length_cons, List.length_nil]; omega)
      rfl]
    rw [Connection.scan_exit _ _ _ _ _ _
      (by show ¬(pre.length + 2 + post.length < L ∧ (pre ++ [255]).length < 256)
          simp only [List.length_append, List.length_cons, List.length_nil]
          omega)]
  -- assemble the read
  simp only [Connection.read, hfill]
  simp only [hscan]
  refine ⟨?_, trivial, trivial, trivial, trivial, trivial⟩
  have hmin : (256 - (pre ++ [255]).length) ⊓ (L - (pre.length + 2)) = post.length := by
    simp only [List.length_append, List.length_cons, List.length_nil]
    omega
  rw [hmin, hdropp2, List.take_left post Z]
  simp

end Telnet

namespace Telnet


set_option maxRecDepth 80000000 in
theorem C10_doubled_marker_literal_witness :
    match Connection.read (NewConnection [some ([65] ++ [255, 255] ++ [66])] []) 256 with
    | Except.ok (s', out, e) =>
        out = [65] ++ 255 :: [66] ∧ e = none ∧
        s'.events = [] ∧ s'.emitted = [] ∧ s'.iac = false ∧ s'.cmd = 0
    | Except.error _ => False :=
  C10_doubled_marker_literal [65] [66] [] (by decide) (by decide) (by decide)

end Telnet
